import Mathlib

/-!
Verification of the agent-smith capability/vault core.

This file shallowly embeds the Token-Mediated Secret Vault (src/core/vault.ts),
the Capability Validator with its Constraint Evaluator and Rate Limiter
(capability-validator module), and the Vault Client facade (vault-client module),
and proves the frozen specification claims about them.

Modelling conventions:
- Date.now() is an explicit natural-number argument (milliseconds).
- crypto.randomBytes nonces are explicit string arguments.
- The module-level SIGNING_KEY is an explicit natural-number argument; sharing of
  the per-process key between vault instances is modelled by passing the same key.
- Mutable state (used-nonce set, rate-limit store) is threaded explicitly.
- A JavaScript exception is modelled with Except: Except.error is a thrown,
  uncaught exception crossing the function boundary, Except.ok a returned value.
- External library functions (JSON.stringify/parse, HMAC, base64, minimatch) are
  modelled as executable Lean functions faithful to the properties the program
  relies on; each model carries a comment at its definition site.
-/

namespace Smith

/-! ## Decimal digit rendering and parsing (models Number serialization in JSON) -/

/-- Lowercase hexadecimal digit characters, in value order. -/
def hexChars : List Char := "0123456789abcdef".toList

/-- Character for digit d (decimal for d < 10, lowercase hex up to 15). -/
def digitChar (d : Nat) : Char := hexChars.getD d '0'

/-- Numeric value of a decimal digit character. -/
def charDigit (c : Char) : Nat := c.toNat - 48

/-- Is this character a decimal digit? -/
def isDigitChar (c : Char) : Bool := 48 ≤ c.toNat && c.toNat ≤ 57

/-- Big-endian decimal digits of n, with explicit fuel to keep recursion
structural (fuel ≥ n suffices). -/
def natToDecAux : Nat → Nat → List Char
  | _, 0 => []
  | 0, _ + 1 => []
  | fuel + 1, n + 1 =>
    natToDecAux fuel ((n + 1) / 10) ++ [digitChar ((n + 1) % 10)]

/-- Big-endian decimal rendering of a natural number (models the JSON
serialization of a nonnegative integer). -/
def natToDec (n : Nat) : List Char :=
  if n = 0 then ['0'] else natToDecAux n n

/-- Value of a big-endian decimal digit string. -/
def decValue (cs : List Char) : Nat := cs.foldl (fun a c => a * 10 + charDigit c) 0

/-- Parse a nonempty run of decimal digits from the front of the input,
returning its value and the rest. -/
def parseNat (cs : List Char) : Option (Nat × List Char) :=
  let ds := cs.takeWhile isDigitChar
  if ds.isEmpty then none else some (decValue ds, cs.dropWhile isDigitChar)

theorem charDigit_digitChar {d : Nat} (h : d < 10) : charDigit (digitChar d) = d := by
  interval_cases d <;> rfl

theorem isDigitChar_digitChar {d : Nat} (h : d < 10) : isDigitChar (digitChar d) = true := by
  interval_cases d <;> rfl

theorem natToDecAux_digits {fuel n : Nat} :
    ∀ c ∈ natToDecAux fuel n, isDigitChar c = true := by
  induction fuel using Nat.strong_induction_on generalizing n with
  | _ fuel ih =>
    match fuel, n with
    | _, 0 => intro c hc; simp [natToDecAux] at hc
    | 0, _ + 1 => intro c hc; simp [natToDecAux] at hc
    | f + 1, m + 1 =>
      intro c hc
      simp only [natToDecAux, List.mem_append, List.mem_singleton] at hc
      rcases hc with hc | hc
      · exact ih f (Nat.lt_succ_self f) c hc
      · subst hc; exact isDigitChar_digitChar (Nat.mod_lt _ (by omega))

theorem natToDec_digits {n : Nat} : ∀ c ∈ natToDec n, isDigitChar c = true := by
  intro c hc
  by_cases h : n = 0
  · subst h; simp [natToDec] at hc; subst hc; rfl
  · simp [natToDec, h] at hc; exact natToDecAux_digits c hc

theorem foldl_dec_shift (cs : List Char) (a : Nat) :
    cs.foldl (fun x c => x * 10 + charDigit c) a =
      a * 10 ^ cs.length + cs.foldl (fun x c => x * 10 + charDigit c) 0 := by
  induction cs generalizing a with
  | nil => simp
  | cons c cs ih =>
    simp only [List.foldl_cons, List.length_cons]
    rw [ih (a * 10 + charDigit c), ih (0 * 10 + charDigit c)]
    ring

theorem decValue_natToDecAux {fuel n : Nat} (h : n ≤ fuel) :
    decValue (natToDecAux fuel n) = n := by
  induction fuel using Nat.strong_induction_on generalizing n with
  | _ fuel ih =>
    match fuel, n with
    | _, 0 => simp [natToDecAux, decValue]
    | 0, m + 1 => omega
    | f + 1, m + 1 =>
      have hdiv : (m + 1) / 10 ≤ f := by
        have := Nat.div_lt_self (Nat.succ_pos m) (by omega : 1 < 10)
        omega
      have ihd := ih f (Nat.lt_succ_self f) hdiv
      simp only [natToDecAux, decValue, List.foldl_append, List.foldl_cons, List.foldl_nil]
      simp only [decValue] at ihd
      rw [ihd, charDigit_digitChar (Nat.mod_lt _ (by omega))]
      omega

theorem decValue_natToDec (n : Nat) : decValue (natToDec n) = n := by
  by_cases h : n = 0
  · subst h; rfl
  · simp only [natToDec, h, if_false]
    exact decValue_natToDecAux (Nat.le_refl n)

theorem takeWhile_append_not {p : Char → Bool} {xs ys : List Char}
    (hxs : ∀ c ∈ xs, p c = true) (hys : ∀ c, ys.head? = some c → p c = false) :
    (xs ++ ys).takeWhile p = xs := by
  induction xs with
  | nil =>
    cases ys with
    | nil => rfl
    | cons y ys => simp [List.takeWhile, hys y rfl]
  | cons x xs ih =>
    simp only [List.cons_append, List.takeWhile]
    rw [hxs x (by simp)]
    simp [ih (fun c hc => hxs c (by simp [hc]))]

theorem dropWhile_append_not {p : Char → Bool} {xs ys : List Char}
    (hxs : ∀ c ∈ xs, p c = true) (hys : ∀ c, ys.head? = some c → p c = false) :
    (xs ++ ys).dropWhile p = ys := by
  induction xs with
  | nil =>
    cases ys with
    | nil => rfl
    | cons y ys => simp [List.dropWhile, hys y rfl]
  | cons x xs ih =>
    simp only [List.cons_append, List.dropWhile]
    rw [hxs x (by simp)]
    simp [ih (fun c hc => hxs c (by simp [hc]))]

theorem parseNat_natToDec (n : Nat) (rest : List Char)
    (hrest : ∀ c, rest.head? = some c → isDigitChar c = false) :
    parseNat (natToDec n ++ rest) = some (n, rest) := by
  have hne : ¬ (natToDec n).isEmpty := by
    by_cases h : n = 0
    · subst h; simp [natToDec]
    · simp only [natToDec, h, if_false]
      match hm : natToDecAux n n with
      | [] =>
        exfalso
        have := decValue_natToDecAux (Nat.le_refl n)
        rw [hm] at this
        simp [decValue] at this
        omega
      | c :: cs => simp
  simp only [parseNat, takeWhile_append_not natToDec_digits hrest,
    dropWhile_append_not natToDec_digits hrest]
  simp [hne, decValue_natToDec]

/-! ## JSON string escaping and the fixed-shape payload codec

Models JSON.stringify / JSON.parse from the JavaScript runtime, specialized to
the TokenPayload object shape used by the token issuer: stringify emits the
fields in declaration order, escaping backslash and double quote inside string
values; parse inverts exactly that shape (the program only ever parses strings
that verified against the HMAC, i.e. strings produced by this stringify). -/

/-- Escape backslash and double quote, as JSON.stringify does for the string
values occurring in token payloads. -/
def escapeJsonChars : List Char → List Char
  | [] => []
  | c :: cs =>
    if c = '"' ∨ c = '\\' then '\\' :: c :: escapeJsonChars cs
    else c :: escapeJsonChars cs

/-- Read a JSON string body (after its opening quote): explicit accumulator,
stops at the first unescaped double quote. The boolean flag records whether the
previous character was an unconsumed escaping backslash. -/
def parseJsonStringAux : Bool → List Char → List Char → Option (String × List Char)
  | _, _, [] => none
  | false, acc, c :: rest =>
    if c = '"' then some (String.mk acc.reverse, rest)
    else if c = '\\' then parseJsonStringAux true acc rest
    else parseJsonStringAux false (c :: acc) rest
  | true, acc, c :: rest => parseJsonStringAux false (c :: acc) rest

/-- Match an expected literal character sequence at the front of the input. -/
def expectChars : List Char → List Char → Option (List Char)
  | [], input => some input
  | _ :: _, [] => none
  | e :: es, c :: cs => if c = e then expectChars es cs else none

theorem expectChars_append (xs ys : List Char) : expectChars xs (xs ++ ys) = some ys := by
  induction xs with
  | nil => rfl
  | cons x xs ih => simp [expectChars, ih]

theorem parseJsonStringAux_quote (acc rest : List Char) :
    parseJsonStringAux false acc ('"' :: rest) = some (String.mk acc.reverse, rest) := rfl

theorem parseJsonStringAux_esc (acc rest : List Char) (c2 : Char) :
    parseJsonStringAux false acc ('\\' :: c2 :: rest) =
      parseJsonStringAux false (c2 :: acc) rest := rfl

theorem parseJsonStringAux_other (acc rest : List Char) (c : Char)
    (h1 : ¬ c = '"') (h2 : ¬ c = '\\') :
    parseJsonStringAux false acc (c :: rest) = parseJsonStringAux false (c :: acc) rest := by
  simp only [parseJsonStringAux, h1, h2, if_false]

theorem parseJsonStringAux_escape (cs : List Char) (acc rest : List Char) :
    parseJsonStringAux false acc (escapeJsonChars cs ++ '"' :: rest) =
      some (String.mk (acc.reverse ++ cs), rest) := by
  induction cs generalizing acc with
  | nil => simp [escapeJsonChars, parseJsonStringAux_quote]
  | cons c cs ih =>
    by_cases hc : c = '"' ∨ c = '\\'
    · simp only [escapeJsonChars, hc, if_true, List.cons_append]
      rw [parseJsonStringAux_esc, ih (c :: acc)]
      simp
    · push_neg at hc
      simp only [escapeJsonChars, hc.1, hc.2, or_self, if_false, List.cons_append]
      rw [parseJsonStringAux_other _ _ _ hc.1 hc.2, ih (c :: acc)]
      simp

theorem parseJsonStringAux_escape_nil (s : String) (rest : List Char) :
    parseJsonStringAux false [] (escapeJsonChars s.toList ++ '"' :: rest) = some (s, rest) := by
  rw [parseJsonStringAux_escape]
  simp

/-! ## Token payload (vault.ts: interface TokenPayload) -/

/-- Token operation kind: "read" or "use". -/
inductive Operation where
  | read
  | use
deriving DecidableEq, Repr

/-- JSON rendering of an operation. -/
def opToString : Operation → String
  | .read => "read"
  | .use => "use"

/-- Inverse of opToString on the two valid operation strings. -/
def opOfString : String → Option Operation
  | "read" => some Operation.read
  | "use" => some Operation.use
  | _ => none

/-- Payload of a capability token (vault.ts: TokenPayload). Timestamps are
milliseconds since epoch. -/
structure TokenPayload where
  secretName : String
  operation : Operation
  issuedAt : Nat
  expiresAt : Nat
  nonce : String
deriving DecidableEq, Repr

/-- Models JSON.stringify(payload) with the field order of the TokenPayload
object literal in createToken. -/
def encodePayload (p : TokenPayload) : String :=
  "\x7b\"secretName\":\"" ++ String.mk (escapeJsonChars p.secretName.toList) ++
    "\",\"operation\":\"" ++ opToString p.operation ++
    "\",\"issuedAt\":" ++ String.mk (natToDec p.issuedAt) ++
    ",\"expiresAt\":" ++ String.mk (natToDec p.expiresAt) ++
    ",\"nonce\":\"" ++ String.mk (escapeJsonChars p.nonce.toList) ++ "\"\x7d"

/-- Models JSON.parse on the exact shape produced by encodePayload (the shape
the verifier accepts after the MAC check); any other input yields none. -/
def parsePayload (s : String) : Option TokenPayload := do
  let r1 ← expectChars "\x7b\"secretName\":\"".toList s.toList
  let (secretName, r2) ← parseJsonStringAux false [] r1
  let r3 ← expectChars ",\"operation\":\"".toList r2
  let (opStr, r4) ← parseJsonStringAux false [] r3
  let operation ← opOfString opStr
  let r5 ← expectChars ",\"issuedAt\":".toList r4
  let (issuedAt, r6) ← parseNat r5
  let r7 ← expectChars ",\"expiresAt\":".toList r6
  let (expiresAt, r8) ← parseNat r7
  let r9 ← expectChars ",\"nonce\":\"".toList r8
  let (nonce, r10) ← parseJsonStringAux false [] r9
  match r10 with
  | ['\x7d'] => some { secretName, operation, issuedAt, expiresAt, nonce }
  | _ => none

theorem toList_append (a b : String) : (a ++ b).toList = a.toList ++ b.toList := rfl

theorem toList_mk (l : List Char) : (String.mk l).toList = l := rfl

theorem escape_opToString (op : Operation) :
    escapeJsonChars (opToString op).toList = (opToString op).toList := by
  cases op <;> rfl

theorem opOfString_opToString (op : Operation) : opOfString (opToString op) = some op := by
  cases op <;> rfl

theorem parseJsonString_op (op : Operation) (rest : List Char) :
    parseJsonStringAux false [] ((opToString op).toList ++ '"' :: rest) =
      some (opToString op, rest) := by
  have h := parseJsonStringAux_escape_nil (opToString op) rest
  rwa [escape_opToString] at h

theorem parseNat_before_expiresAt (n : Nat) (rest : List Char) :
    parseNat (natToDec n ++ (",\"expiresAt\":".toList ++ rest)) =
      some (n, ",\"expiresAt\":".toList ++ rest) := by
  apply parseNat_natToDec
  intro c hc
  have h : ((",\"expiresAt\":".toList ++ rest).head? : Option Char) = some ',' := rfl
  rw [h] at hc
  cases hc
  rfl

theorem parseNat_before_nonce (n : Nat) (rest : List Char) :
    parseNat (natToDec n ++ (",\"nonce\":\"".toList ++ rest)) =
      some (n, ",\"nonce\":\"".toList ++ rest) := by
  apply parseNat_natToDec
  intro c hc
  have h : ((",\"nonce\":\"".toList ++ rest).head? : Option Char) = some ',' := rfl
  rw [h] at hc
  cases hc
  rfl

theorem parsePayload_encodePayload (p : TokenPayload) :
    parsePayload (encodePayload p) = some p := by
  obtain ⟨name, op, ia, ea, nonce⟩ := p
  have e2 : ("\",\"operation\":\"" : String).toList = '"' :: ",\"operation\":\"".toList := rfl
  have e3 : ("\",\"issuedAt\":" : String).toList = '"' :: ",\"issuedAt\":".toList := rfl
  have e6 : ("\"\x7d" : String).toList = '"' :: ['\x7d'] := rfl
  have hlist : (encodePayload ⟨name, op, ia, ea, nonce⟩).toList =
      "\x7b\"secretName\":\"".toList ++ (escapeJsonChars name.toList ++ ('"' ::
        (",\"operation\":\"".toList ++ ((opToString op).toList ++ ('"' ::
        (",\"issuedAt\":".toList ++ (natToDec ia ++ (",\"expiresAt\":".toList ++
        (natToDec ea ++ (",\"nonce\":\"".toList ++ (escapeJsonChars nonce.toList ++
        ('"' :: ['\x7d'])))))))))))) := by
    simp [encodePayload, toList_append, toList_mk, e2, e3, e6, List.append_assoc,
      List.cons_append]
  simp only [parsePayload, hlist, expectChars_append, Option.bind_eq_bind,
    Option.some_bind, parseJsonStringAux_escape_nil, parseJsonString_op,
    opOfString_opToString, parseNat_before_expiresAt, parseNat_before_nonce]

/-! ## Cryptographic primitives (models of the crypto runtime library)

The claims under verification rely on the HMAC being a deterministic keyed
function whose hex digest is 64 lowercase-hex characters, and on base64 being an
injective encoding with decoding as its exact inverse; neither unforgeability
nor the base64 alphabet is examined by any claim, so the models below realize
exactly those relied-upon properties with executable functions. -/

/-- Is this character a lowercase hexadecimal digit (the verifier's regex
character class [a-f0-9])? -/
def isHexChar (c : Char) : Bool := decide (c ∈ hexChars)

/-- Models crypto.createHmac("sha256", key).update(msg).digest("hex"): a
deterministic keyed digest of the message, rendered as 64 lowercase hex
characters. -/
def hmacSha256Hex (key : Nat) (msg : String) : String :=
  let h := msg.foldl (fun a c => (a * 131 + c.toNat + 7) % 2 ^ 256) (key % 2 ^ 256)
  String.mk ((List.range 64).map (fun i => digitChar (h / 16 ^ i % 16)))

/-- Models Buffer.from(s).toString("base64"): an injective encoding of the
string; modelled as the identity since no claim inspects the encoded alphabet. -/
def toBase64 (s : String) : String := s

/-- Models Buffer.from(t, "base64").toString("utf8"), the inverse of toBase64. -/
def fromBase64 (s : String) : String := s

theorem digitChar_mem {d : Nat} (h : d < 16) : digitChar d ∈ hexChars := by
  interval_cases d <;> decide

theorem length_mk (l : List Char) : (String.mk l).length = l.length := rfl

theorem hmac_length (key : Nat) (msg : String) : (hmacSha256Hex key msg).length = 64 := by
  simp [hmacSha256Hex, length_mk]

theorem hmac_mem_hexChars (key : Nat) (msg : String) :
    ∀ c ∈ (hmacSha256Hex key msg).toList, c ∈ hexChars := by
  intro c hc
  simp only [hmacSha256Hex, toList_mk, List.mem_map] at hc
  obtain ⟨i, _, rfl⟩ := hc
  exact digitChar_mem (Nat.mod_lt _ (by omega))

theorem hmac_allHex (key : Nat) (msg : String) :
    (hmacSha256Hex key msg).toList.all isHexChar = true := by
  rw [List.all_eq_true]
  intro c hc
  simp only [isHexChar, decide_eq_true_eq]
  exact hmac_mem_hexChars key msg c hc

theorem hmac_no_dot (key : Nat) (msg : String) :
    '.' ∉ (hmacSha256Hex key msg).toList := by
  intro hmem
  have := hmac_mem_hexChars key msg '.' hmem
  simp [hexChars] at this

/-! ## Splitting a decoded token at its last dot (vault.ts: lastIndexOf(".")) -/

/-- Split a character list at its last dot: returns (before, after), or none if
no dot occurs (models decoded.lastIndexOf(".") plus the two slices). -/
def splitLastDotAux : List Char → Option (List Char × List Char)
  | [] => none
  | c :: cs =>
    match splitLastDotAux cs with
    | some (pre, post) => some (c :: pre, post)
    | none => if c = '.' then some ([], cs) else none

/-- Split a decoded token string at its last dot into payload and signature
parts (models slice(0, lastDotIndex) / slice(lastDotIndex + 1)). -/
def lastDotSplit (s : String) : Option (String × String) :=
  match splitLastDotAux s.toList with
  | none => none
  | some (pre, post) => some (String.mk pre, String.mk post)

theorem splitLastDotAux_no_dot {ys : List Char} (h : '.' ∉ ys) :
    splitLastDotAux ys = none := by
  induction ys with
  | nil => rfl
  | cons y ys ih =>
    have hy : ¬ (y = '.') := fun he => h (by simp [he])
    have hys : '.' ∉ ys := fun hm => h (by simp [hm])
    simp [splitLastDotAux, ih hys, hy]

theorem splitLastDotAux_append {xs ys : List Char} (h : '.' ∉ ys) :
    splitLastDotAux (xs ++ '.' :: ys) = some (xs, ys) := by
  induction xs with
  | nil => simp [splitLastDotAux, splitLastDotAux_no_dot h]
  | cons x xs ih => simp [splitLastDotAux, ih]

/-! ## Token creation and verification (vault.ts: createToken / verifyToken) -/

/-- Models createToken(secretName, operation, ttlSeconds). The per-process
SIGNING_KEY, Date.now() and the random 16-byte nonce are explicit arguments. -/
def createToken (signingKey : Nat) (now : Nat) (nonce : String)
    (secretName : String) (operation : Operation) (ttlSeconds : Nat) : String :=
  let payload : TokenPayload :=
    { secretName, operation, issuedAt := now, expiresAt := now + ttlSeconds * 1000, nonce }
  let payloadStr := encodePayload payload
  let signature := hmacSha256Hex signingKey payloadStr
  toBase64 (payloadStr ++ "." ++ signature)

/-- Models verifyToken(token): base64 decode, split at the last dot, check the
signature is 64 lowercase-hex characters, compare with the recomputed HMAC (the
buffer-length check plus timingSafeEqual collapse to string equality), parse the
payload, reject if Date.now() > expiresAt. Any JSON.parse failure is caught and
yields null, modelled by parsePayload returning none. -/
def verifyToken (signingKey : Nat) (now : Nat) (token : String) : Option TokenPayload :=
  let decoded := fromBase64 token
  match lastDotSplit decoded with
  | none => none
  | some (payloadStr, signature) =>
    if signature.length ≠ 64 then none
    else if ¬ (signature.toList.all isHexChar) then none
    else if signature ≠ hmacSha256Hex signingKey payloadStr then none
    else
      match parsePayload payloadStr with
      | none => none
      | some payload => if payload.expiresAt < now then none else some payload

theorem mk_toList (s : String) : String.mk s.toList = s := rfl

theorem lastDotSplit_payload_sig (payloadStr : String) (key : Nat) :
    lastDotSplit (payloadStr ++ "." ++ hmacSha256Hex key payloadStr) =
      some (payloadStr, hmacSha256Hex key payloadStr) := by
  have hdot : '.' ∉ (hmacSha256Hex key payloadStr).toList := hmac_no_dot key payloadStr
  have hlist : (payloadStr ++ "." ++ hmacSha256Hex key payloadStr).toList =
      payloadStr.toList ++ '.' :: (hmacSha256Hex key payloadStr).toList := by
    rw [toList_append, toList_append, List.append_assoc]
    rfl
  unfold lastDotSplit
  rw [hlist, splitLastDotAux_append hdot]
  rfl

/-- Round trip at the token layer: verifying a token created with the same
signing key succeeds iff the verification time has not passed expiresAt, and
returns exactly the payload the issuer built. -/
theorem verifyToken_createToken (key now1 now2 ttl : Nat) (nonce name : String)
    (op : Operation) :
    verifyToken key now2 (createToken key now1 nonce name op ttl) =
      if now1 + ttl * 1000 < now2 then none
      else some { secretName := name, operation := op, issuedAt := now1,
                  expiresAt := now1 + ttl * 1000, nonce := nonce } := by
  simp only [createToken, verifyToken, toBase64, fromBase64, lastDotSplit_payload_sig,
    hmac_length, hmac_allHex, parsePayload_encodePayload]
  simp

/-! ## Secret definitions and retrieval (vault.ts / smith.config.ts) -/

/-- Source kind of a secret (smith.config.ts: SecretDef.source). The third
constructor models the source value named after outside vault providers. -/
inductive SecretSource where
  | env
  | oauth
  | ext
deriving DecidableEq, Repr

/-- Definition of one secret (smith.config.ts: SecretDef); only the fields the
vault reads are modelled. -/
structure SecretDef where
  source : SecretSource
  envVar : Option String := none
deriving DecidableEq, Repr

/-- Models getSecretValue(def): env sources read process.env (an explicit
function argument here); oauth and the outside-vault source are unimplemented
and yield null. -/
def getSecretValue (env : String → Option String) (sd : SecretDef) : Option String :=
  match sd.source with
  | .env =>
    match sd.envVar with
    | none => none
    | some v => env v
  | .oauth => none
  | .ext => none

/-- Vault configuration (smith.config.ts: VaultConfig); the secrets record is
modelled as an association list with first-match lookup. -/
structure VaultConfig where
  enabled : Bool
  secrets : List (String × SecretDef)
  tokenTTL : Option Nat := none
deriving DecidableEq, Repr

/-- Record lookup this.config.secrets[name]. -/
def lookupSecret (cfg : VaultConfig) (name : String) : Option SecretDef :=
  (cfg.secrets.find? (fun kv => kv.1 == name)).map Prod.snd

/-- Result shape of token operations (smith.config.ts: VaultRequestResult). -/
structure VaultRequestResult where
  success : Bool
  value : Option String := none
  error : Option String := none
  token : Option String := none
deriving DecidableEq, Repr

/-- Mutable state owned by one SecretVault instance: the used-nonce set. -/
structure VaultState where
  usedNonces : List String
deriving DecidableEq, Repr

/-- Models SecretVault.requestToken(secretName, operation): denies when the
vault is disabled or the secret is unknown, otherwise issues a token with the
configured TTL (default 300 seconds). -/
def requestToken (cfg : VaultConfig) (signingKey now : Nat) (nonce : String)
    (secretName : String) (operation : Operation) : VaultRequestResult :=
  if ¬ cfg.enabled then { success := false, error := some "Vault is disabled" }
  else
    match lookupSecret cfg secretName with
    | none => { success := false, error := some ("Unknown secret: " ++ secretName) }
    | some _ =>
      let ttl := cfg.tokenTTL.getD 300
      { success := true, token := some (createToken signingKey now nonce secretName operation ttl) }

/-- Models SecretVault.useToken(token): verify, reject replayed nonces, record
the nonce, then resolve the secret and return its raw value. Returns the result
together with the updated used-nonce state. -/
def useToken (cfg : VaultConfig) (env : String → Option String) (signingKey now : Nat)
    (st : VaultState) (token : String) : VaultRequestResult × VaultState :=
  match verifyToken signingKey now token with
  | none => ({ success := false, error := some "Invalid or expired token" }, st)
  | some payload =>
    if payload.nonce ∈ st.usedNonces then
      ({ success := false, error := some "Token already used" }, st)
    else
      let st' : VaultState := { usedNonces := payload.nonce :: st.usedNonces }
      match lookupSecret cfg payload.secretName with
      | none => ({ success := false, error := some "Secret not found" }, st')
      | some sd =>
        match getSecretValue env sd with
        | none => ({ success := false, error := some "Secret value not available" }, st')
        | some value => ({ success := true, value := some value }, st')

/-! ## Vault execute (vault.ts: SecretVault.execute) -/

/-- Operation field of a vault request (vault.ts: VaultOperation). -/
inductive VaultOperation where
  | read
  | use
  | execute
deriving DecidableEq, Repr

/-- Request shape for SecretVault.execute (vault.ts: VaultRequest). Params is
the type of executor parameter records (Record of string to unknown). -/
structure VaultRequest (Params : Type) where
  token : Option String := none
  secretName : String
  operation : VaultOperation
  executeAction : Option String := none
  executeParams : Option Params := none

/-- Result shape of SecretVault.execute (vault.ts: ExecuteResult); Value is the
type of executor results (unknown). -/
structure ExecuteResult (Value : Type) where
  success : Bool
  result : Option Value := none
  error : Option String := none

/-- Executor registry (vault.ts: SecretVault.executors). An executor takes the
resolved secret and a params record; Except.error models a thrown/rejected
executor error with its message. -/
def Executors (Params Value : Type) :=
  List (String × (String → Params → Except String Value))

/-- Registry lookup this.executors.get(name). -/
def lookupExecutor {Params Value : Type} (executors : Executors Params Value)
    (name : String) : Option (String → Params → Except String Value) :=
  (executors.find? (fun kv => kv.1 == name)).map Prod.snd

/-- Models SecretVault.registerExecutor(name, executor): Map.set on the
registry (replacing any previous binding for the name). -/
def registerExecutor {Params Value : Type} (executors : Executors Params Value)
    (name : String) (f : String → Params → Except String Value) : Executors Params Value :=
  match executors with
  | [] => [(name, f)]
  | (k, g) :: rest =>
    if k == name then (name, f) :: rest else (k, g) :: registerExecutor rest name f

/-- Models SecretVault.execute(request): verify the token, reject and record the
nonce, look up the executor, resolve the secret, invoke the executor with
(secret, params ?? empty), catching any thrown executor error as a string. The
emptyObj argument models the empty record default for executeParams. -/
def execute {Params Value : Type} (cfg : VaultConfig) (env : String → Option String)
    (executors : Executors Params Value) (signingKey now : Nat) (st : VaultState)
    (request : VaultRequest Params) (emptyObj : Params) : ExecuteResult Value × VaultState :=
  match request.token with
  | none => ({ success := false, error := some "Token required for execute operation" }, st)
  | some token =>
    match verifyToken signingKey now token with
    | none => ({ success := false, error := some "Invalid or expired token" }, st)
    | some payload =>
      if payload.nonce ∈ st.usedNonces then
        ({ success := false, error := some "Token already used" }, st)
      else
        let st' : VaultState := { usedNonces := payload.nonce :: st.usedNonces }
        match request.executeAction with
        | none => ({ success := false, error := some "Execute action required" }, st')
        | some actionName =>
          match lookupExecutor executors actionName with
          | none =>
            ({ success := false, error := some ("Unknown executor: " ++ actionName) }, st')
          | some executor =>
            match lookupSecret cfg payload.secretName with
            | none => ({ success := false, error := some "Secret not found" }, st')
            | some sd =>
              match getSecretValue env sd with
              | none => ({ success := false, error := some "Secret value not available" }, st')
              | some secret =>
                match executor secret (request.executeParams.getD emptyObj) with
                | .ok result => ({ success := true, result := some result }, st')
                | .error err => ({ success := false, error := some err }, st')

/-- Models SecretVault.listSecrets(): Object.keys of the secrets record. -/
def listSecrets (cfg : VaultConfig) : List String := cfg.secrets.map Prod.fst

/-- Models SecretVault.hasSecret(name): the secret exists and has a value. -/
def hasSecret (cfg : VaultConfig) (env : String → Option String) (name : String) : Bool :=
  match lookupSecret cfg name with
  | none => false
  | some sd => (getSecretValue env sd).isSome

/-! ## Vault Client facade (vault-client module: class VaultClient) -/

/-- Result of the client round-trip helpers (vault-client module:
AuthenticatedRequestResult and the executeWithSecret return shape). -/
structure AuthenticatedRequestResult (Value : Type) where
  success : Bool
  data : Option Value := none
  error : Option String := none

/-- Models VaultClient.listAvailableSecrets(). -/
def listAvailableSecrets (cfg : VaultConfig) : List String := listSecrets cfg

/-- Models VaultClient.hasSecret(name). -/
def clientHasSecret (cfg : VaultConfig) (env : String → Option String) (name : String) : Bool :=
  hasSecret cfg env name

/-- Models VaultClient.executeWithSecret(secretName, executorName, params):
requestToken with operation "use", then vault.execute with the fresh token, and
return only success, data (the executor result) and error. nowIssue/nowExec are
the two Date.now() readings, nonce the issued token's random nonce. -/
def executeWithSecret {Params Value : Type} (cfg : VaultConfig)
    (env : String → Option String) (executors : Executors Params Value)
    (signingKey nowIssue nowExec : Nat) (nonce : String) (st : VaultState)
    (secretName executorName : String) (params : Params) (emptyObj : Params) :
    AuthenticatedRequestResult Value × VaultState :=
  let tokenResult := requestToken cfg signingKey nowIssue nonce secretName Operation.use
  match tokenResult.token, tokenResult.success with
  | some token, true =>
    let r := execute cfg env executors signingKey nowExec st
      { token := some token, secretName := secretName, operation := VaultOperation.execute,
        executeAction := some executorName, executeParams := some params } emptyObj
    ({ success := r.1.success, data := r.1.result, error := r.1.error }, r.2)
  | _, _ =>
    ({ success := false, error := some (tokenResult.error.getD "Failed to get token") }, st)

/-- Models VaultClient.makeAuthenticatedRequest(secretName, params): the same
round trip with the built-in "http" executor. -/
def makeAuthenticatedRequest {Params Value : Type} (cfg : VaultConfig)
    (env : String → Option String) (executors : Executors Params Value)
    (signingKey nowIssue nowExec : Nat) (nonce : String) (st : VaultState)
    (secretName : String) (params : Params) (emptyObj : Params) :
    AuthenticatedRequestResult Value × VaultState :=
  let tokenResult := requestToken cfg signingKey nowIssue nonce secretName Operation.use
  match tokenResult.token, tokenResult.success with
  | some token, true =>
    let r := execute cfg env executors signingKey nowExec st
      { token := some token, secretName := secretName, operation := VaultOperation.execute,
        executeAction := some "http", executeParams := some params } emptyObj
    ({ success := r.1.success, data := r.1.result, error := r.1.error }, r.2)
  | _, _ =>
    ({ success := false, error := some (tokenResult.error.getD "Failed to get token") }, st)

theorem makeAuthenticatedRequest_eq_executeWithSecret {Params Value : Type}
    (cfg : VaultConfig) (env : String → Option String) (executors : Executors Params Value)
    (signingKey nowIssue nowExec : Nat) (nonce : String) (st : VaultState)
    (secretName : String) (params : Params) (emptyObj : Params) :
    makeAuthenticatedRequest cfg env executors signingKey nowIssue nowExec nonce st
        secretName params emptyObj =
      executeWithSecret cfg env executors signingKey nowIssue nowExec nonce st
        secretName "http" params emptyObj := rfl

/-! ## Rate limiter (capability-validator module: checkRateLimit) -/

/-- Per-key fixed-window counter entry (capability-validator: RateLimitEntry). -/
structure RateLimitEntry where
  count : Nat
  windowStart : Nat
deriving DecidableEq, Repr

/-- The shared in-memory rate limit store, an association map keyed by
capability name. -/
def RateLimitStore := List (String × RateLimitEntry)

/-- Map lookup rateLimitStore.get(capability). -/
def lookupStore (store : RateLimitStore) (key : String) : Option RateLimitEntry :=
  (store.find? (fun kv => kv.1 == key)).map Prod.snd

/-- Map.set on the rate limit store. -/
def setStore (store : RateLimitStore) (key : String) (v : RateLimitEntry) : RateLimitStore :=
  match store with
  | [] => [(key, v)]
  | (k, e) :: rest => if k == key then (key, v) :: rest else (k, e) :: setStore rest key v

/-- The fixed window length in milliseconds. -/
def RATE_LIMIT_WINDOW_MS : Nat := 60 * 1000

/-- Models checkRateLimit(capability, limit): on a missing entry or an elapsed
window, reset to count 1 and allow; under the limit, increment and allow;
otherwise deny without mutating. Returns the decision and the updated store. -/
def checkRateLimit (store : RateLimitStore) (now : Nat) (capability : String)
    (limit : Nat) : Bool × RateLimitStore :=
  match lookupStore store capability with
  | none => (true, setStore store capability { count := 1, windowStart := now })
  | some entry =>
    if RATE_LIMIT_WINDOW_MS < now - entry.windowStart then
      (true, setStore store capability { count := 1, windowStart := now })
    else if limit ≤ entry.count then (false, store)
    else (true, setStore store capability { entry with count := entry.count + 1 })

/-! ## Constraint evaluator (capability-validator: isDomainAllowed / isPathAllowed)

The glob matcher minimatch is an outside library; it enters the model as an
explicit matcher argument of type subject → pattern → Bool. The domain matcher
stands for minimatch with the nocase option, the path matcher for minimatch
with the dot option, as at the two call sites. -/

/-- Outcome of a domain or path constraint check. -/
structure SubjectCheck where
  allowed : Bool
  reason : Option String := none
deriving DecidableEq, Repr

/-- Models isDomainAllowed(domain, allowed?, blocked?): blocked patterns take
precedence and deny with a reason citing the first matching pattern; a
nonempty allowlist requires at least one match; otherwise allow. -/
def isDomainAllowed (mm : String → String → Bool) (domain : String)
    (allowed blocked : Option (List String)) : SubjectCheck :=
  match blocked.bind (fun ps => ps.find? (fun pat => mm domain pat)) with
  | some pat => { allowed := false, reason := some ("Domain blocked by pattern: " ++ pat) }
  | none =>
    match allowed with
    | some ps =>
      if 0 < ps.length then
        if ps.any (fun pat => mm domain pat) then { allowed := true }
        else { allowed := false, reason := some "Domain not in allowlist" }
      else { allowed := true }
    | none => { allowed := true }

/-- Path separator normalization filePath.replace(backslashes, "/"). -/
def normalizePath (p : String) : String :=
  String.mk (p.toList.map (fun c => if c = '\\' then '/' else c))

/-- Models isPathAllowed(filePath, allowed?, blocked?): normalize separators,
then the same blocked-first policy as for domains. -/
def isPathAllowed (mm : String → String → Bool) (filePath : String)
    (allowed blocked : Option (List String)) : SubjectCheck :=
  let normalized := normalizePath filePath
  match blocked.bind (fun ps => ps.find? (fun pat => mm normalized pat)) with
  | some pat => { allowed := false, reason := some ("Path blocked by pattern: " ++ pat) }
  | none =>
    match allowed with
    | some ps =>
      if 0 < ps.length then
        if ps.any (fun pat => mm normalized pat) then { allowed := true }
        else { allowed := false, reason := some "Path not in allowlist" }
      else { allowed := true }
    | none => { allowed := true }

/-! ## Capability configuration (smith.config.ts) -/

/-- Per-capability constraint set (smith.config.ts: CapabilityConstraints). -/
structure CapabilityConstraints where
  allowedDomains : Option (List String) := none
  blockedDomains : Option (List String) := none
  allowedPaths : Option (List String) := none
  blockedPaths : Option (List String) := none
  maxPayloadSize : Option Nat := none
  rateLimit : Option Nat := none
  requireConfirmation : Option Bool := none
  customValidator : Option String := none
deriving DecidableEq, Repr

/-- One capability definition (smith.config.ts: CapabilityDef). -/
structure CapabilityDef where
  enabled : Bool
  constraints : Option CapabilityConstraints := none
deriving DecidableEq, Repr

/-- Global constraints (smith.config.ts: GlobalConstraints); only the fields
validate reads are modelled. -/
structure GlobalConstraints where
  maxRatePerMinute : Option Nat := none
  alwaysRequireConfirmation : Option (List String) := none
  blockedDomains : Option (List String) := none
  allowedDomains : Option (List String) := none
deriving DecidableEq, Repr

/-- Validator-relevant part of the configuration (smith.config.ts: SmithConfig);
the capabilities record is an association list with first-match lookup. -/
structure SmithConfig where
  capabilities : List (String × CapabilityDef)
  constraints : Option GlobalConstraints := none

/-- Record lookup this.config.capabilities[action]. -/
def lookupCapability (cfg : SmithConfig) (action : String) : Option CapabilityDef :=
  (cfg.capabilities.find? (fun kv => kv.1 == action)).map Prod.snd

/-- Per-call action context (capability-validator: ActionContext). The raw args
payload is only forwarded to logging and custom validators and is not modelled. -/
structure ActionContext where
  action : String
  domain : Option String := none
  path : Option String := none
  payloadSize : Option Nat := none
deriving DecidableEq, Repr

/-- Validation outcome (smith.config.ts: ValidationResult). -/
structure ValidationResult where
  allowed : Bool
  reason : Option String := none
  capability : Option String := none
  constraints : Option CapabilityConstraints := none
  requiresConfirmation : Option Bool := none
deriving DecidableEq, Repr

/-- JavaScript truthiness of an optional number: undefined and 0 are falsy.
Guards like if (constraints.rateLimit) use this. -/
def optNatTruthy : Option Nat → Bool
  | none => false
  | some n => n != 0

/-- JavaScript a ?? b on optional values (nullish coalescing). -/
def orNullish {α : Type} : Option α → Option α → Option α
  | some x, _ => some x
  | none, y => y

/-- JavaScript a || b where a is an optional boolean: the right operand is
taken unless a is true. -/
def jsOr (a b : Option Bool) : Option Bool :=
  if a = some true then some true else b

/-- Empty list for an absent optional list (the spread of an undefined-guarded
array in the blocked-domain merge). -/
def optList {α : Type} : Option (List α) → List α
  | none => []
  | some l => l

/-! ## Capability validator (capability-validator: CapabilityValidator.validate)

The validator is split here into validate (steps 1 to 4, which read and mutate
the shared rate store) and validateChecks (steps 5 to 9, which are pure); the
split is a presentation of the single source function, whose rate mutations all
happen before step 5. A registered custom validator is a function returning
Except: Except.error is an exception the validator throws, which the source
does not catch. -/

/-- Registry of custom validators (capability-validator: customValidators). -/
def CustomValidators :=
  List (String × (ActionContext → Except String ValidationResult))

/-- Registry lookup this.customValidators.get(name). -/
def lookupValidator (cvs : CustomValidators) (name : String) :
    Option (ActionContext → Except String ValidationResult) :=
  (cvs.find? (fun kv => kv.1 == name)).map Prod.snd

/-- Models CapabilityValidator.registerCustomValidator(name, fn): Map.set. -/
def registerCustomValidator (cvs : CustomValidators) (name : String)
    (f : ActionContext → Except String ValidationResult) : CustomValidators :=
  match cvs with
  | [] => [(name, f)]
  | (k, g) :: rest =>
    if k == name then (name, f) :: rest else (k, g) :: registerCustomValidator rest name f

/-- Steps 5 to 9 of validate: domain constraints (global blocked merged with
per-capability blocked, per-capability allowlist falling back to the global
one), path constraints, payload size, custom validator, confirmation flag. -/
def validateChecks (cfg : SmithConfig) (mmDomain mmPath : String → String → Bool)
    (cvs : CustomValidators) (ctx : ActionContext) (constraints : CapabilityConstraints) :
    Except String ValidationResult :=
  let action := ctx.action
  let dCheck :=
    match ctx.domain with
    | none => ({ allowed := true } : SubjectCheck)
    | some domain =>
      let blockedDomains :=
        optList (cfg.constraints.bind GlobalConstraints.blockedDomains) ++
          optList constraints.blockedDomains
      let allowedDomains :=
        orNullish constraints.allowedDomains (cfg.constraints.bind GlobalConstraints.allowedDomains)
      isDomainAllowed mmDomain domain allowedDomains (some blockedDomains)
  if ¬ dCheck.allowed then
    .ok { allowed := false, reason := dCheck.reason, capability := some action }
  else
    let pCheck :=
      match ctx.path with
      | none => ({ allowed := true } : SubjectCheck)
      | some filePath => isPathAllowed mmPath filePath constraints.allowedPaths constraints.blockedPaths
    if ¬ pCheck.allowed then
      .ok { allowed := false, reason := pCheck.reason, capability := some action }
    else
      let sizeViolation :=
        match ctx.payloadSize, constraints.maxPayloadSize with
        | some size, some maxSize => if maxSize < size then some (size, maxSize) else none
        | _, _ => none
      match sizeViolation with
      | some (size, maxSize) =>
        .ok { allowed := false,
              reason := some ("Payload too large: " ++ toString size ++ " > " ++ toString maxSize),
              capability := some action }
      | none =>
        let allowResult : ValidationResult :=
          { allowed := true, capability := some action, constraints := some constraints,
            requiresConfirmation :=
              jsOr constraints.requireConfirmation
                ((cfg.constraints.bind GlobalConstraints.alwaysRequireConfirmation).map
                  (fun l => l.contains action)) }
        match constraints.customValidator with
        | none => .ok allowResult
        | some cvName =>
          match lookupValidator cvs cvName with
          | none => .ok allowResult
          | some customFn =>
            match customFn ctx with
            | .error e => .error e
            | .ok customResult =>
              if ¬ customResult.allowed then .ok customResult else .ok allowResult

/-- Models CapabilityValidator.validate(ctx): steps 1 to 2 reject unknown or
disabled capabilities without touching the rate store; steps 3 to 4 run the
global and per-capability rate checks (JavaScript truthiness: an absent or zero
limit skips its check); steps 5 to 9 are validateChecks. The updated rate store
is returned alongside the result. -/
def validate (cfg : SmithConfig) (mmDomain mmPath : String → String → Bool)
    (cvs : CustomValidators) (store : RateLimitStore) (now : Nat) (ctx : ActionContext) :
    Except String (ValidationResult × RateLimitStore) :=
  match lookupCapability cfg ctx.action with
  | none =>
    .ok ({ allowed := false, reason := some ("Unknown capability: " ++ ctx.action),
           capability := some ctx.action }, store)
  | some capability =>
    if ¬ capability.enabled then
      .ok ({ allowed := false, reason := some ("Capability disabled: " ++ ctx.action),
             capability := some ctx.action }, store)
    else
      let constraints := capability.constraints.getD {}
      let globalLimit := cfg.constraints.bind GlobalConstraints.maxRatePerMinute
      let s3 :=
        if optNatTruthy globalLimit then
          checkRateLimit store now "__global__" (globalLimit.getD 0)
        else (true, store)
      if ¬ s3.1 then
        .ok ({ allowed := false, reason := some "Global rate limit exceeded",
               capability := some ctx.action }, s3.2)
      else
        let s4 :=
          if optNatTruthy constraints.rateLimit then
            checkRateLimit s3.2 now ctx.action (constraints.rateLimit.getD 0)
          else (true, s3.2)
        if ¬ s4.1 then
          .ok ({ allowed := false, reason := some ("Rate limit exceeded for " ++ ctx.action),
                 capability := some ctx.action }, s4.2)
        else
          (validateChecks cfg mmDomain mmPath cvs ctx constraints).map (fun r => (r, s4.2))

/-! ## Model-strength scaling (capability-validator: scaleForModel) -/

/-- Model strength tiers. -/
inductive ModelStrength where
  | weak
  | medium
  | strong
deriving DecidableEq, Repr

/-- Math.floor(n * multiplier) for the per-tier multipliers 0.5 / 1.0 / 2.0. -/
def applyMult : ModelStrength → Nat → Nat
  | .weak, n => n / 2
  | .medium, n => n
  | .strong, n => n * 2

/-- Models the per-capability body of scaleForModel: numeric limits present and
nonzero (JavaScript truthiness) are multiplied in place. -/
def scaleCapability (ms : ModelStrength) (cap : CapabilityDef) : CapabilityDef :=
  match cap.constraints with
  | none => cap
  | some c =>
    let c1 :=
      if optNatTruthy c.rateLimit then
        { c with rateLimit := some (applyMult ms (c.rateLimit.getD 0)) }
      else c
    let c2 :=
      if optNatTruthy c1.maxPayloadSize then
        { c1 with maxPayloadSize := some (applyMult ms (c1.maxPayloadSize.getD 0)) }
      else c1
    { cap with constraints := some c2 }

/-- Models CapabilityValidator.scaleForModel(modelStrength) over the whole
capability record. -/
def scaleForModel (ms : ModelStrength) (cfg : SmithConfig) : SmithConfig :=
  { cfg with capabilities := cfg.capabilities.map (fun kv => (kv.1, scaleCapability ms kv.2)) }

/-! ## Generic helper lemmas -/

theorem find?_of_exists {α : Type} {p : α → Bool} {l : List α}
    (h : ∃ x ∈ l, p x = true) :
    ∃ y, l.find? p = some y ∧ p y = true ∧ y ∈ l := by
  induction l with
  | nil => simp at h
  | cons a l ih =>
    by_cases ha : p a = true
    · exact ⟨a, by simp [List.find?, ha], ha, by simp⟩
    · obtain ⟨x, hx, hpx⟩ := h
      rcases List.mem_cons.mp hx with he | hm
      · exact absurd (he ▸ hpx) ha
      · obtain ⟨y, hf, hp, hmem⟩ := ih ⟨x, hm, hpx⟩
        refine ⟨y, ?_, hp, by simp [hmem]⟩
        simp [List.find?, ha, hf]

/-! ## Claim theorems -/

/-- C10: token round trip: verifying a token immediately after issuance (with
the same signing key and ttl > 0) succeeds and returns a payload carrying the
same secretName and operation. -/
theorem c10_token_round_trip (key now : Nat) (nonce name : String) (op : Operation)
    (ttl : Nat) (h : 0 < ttl) :
    ∃ p : TokenPayload,
      verifyToken key now (createToken key now nonce name op ttl) = some p ∧
        p.secretName = name ∧ p.operation = op := by
  refine ⟨{ secretName := name, operation := op, issuedAt := now,
            expiresAt := now + ttl * 1000, nonce := nonce }, ?_, rfl, rfl⟩
  rw [verifyToken_createToken, if_neg (by omega : ¬ (now + ttl * 1000 < now))]

/-- Witness for C10 at a concrete input. -/
theorem c10_token_round_trip_witness :
    ∃ p : TokenPayload,
      verifyToken 1 0 (createToken 1 0 "n" "API" Operation.use 300) = some p ∧
        p.secretName = "API" ∧ p.operation = Operation.use :=
  c10_token_round_trip 1 0 "n" "API" Operation.use 300 (by decide)

/-- C5 counterexample: a token issued with ttl = 0 is NOT rejected when
verification happens at the exact issuance instant (now = issuedAt =
expiresAt), because verifyToken only rejects when now is strictly past
expiresAt; this refutes the claim that a ttl = 0 token is always denied. -/
theorem c5_ttl_zero_counterexample :
    verifyToken 7 1000 (createToken 7 1000 "n" "API" Operation.use 0) =
      some { secretName := "API", operation := Operation.use, issuedAt := 1000,
             expiresAt := 1000, nonce := "n" } := by
  rw [verifyToken_createToken, if_neg (by omega : ¬ (1000 + 0 * 1000 < 1000))]

/-- C5 amended: verification rejects exactly when the clock has advanced
strictly past expiresAt = issuedAt + ttl * 1000 (so a ttl = 0 token is denied
at any time strictly after issuance, though not at the issuance instant
itself), and useToken then fails with "Invalid or expired token". -/
theorem c5_token_expiry_amended (cfg : VaultConfig) (env : String → Option String)
    (key now1 now2 ttl : Nat) (nonce name : String) (op : Operation) (st : VaultState)
    (h : now1 + ttl * 1000 < now2) :
    verifyToken key now2 (createToken key now1 nonce name op ttl) = none ∧
    useToken cfg env key now2 st (createToken key now1 nonce name op ttl) =
      ({ success := false, error := some "Invalid or expired token" }, st) := by
  have hv : verifyToken key now2 (createToken key now1 nonce name op ttl) = none := by
    rw [verifyToken_createToken, if_pos h]
  exact ⟨hv, by simp [useToken, hv]⟩

/-- Witness for the amended C5 at a concrete input (ttl = 0, verified 1 ms
after issuance). -/
theorem c5_token_expiry_amended_witness :
    verifyToken 7 1 (createToken 7 0 "n" "API" Operation.use 0) = none ∧
    useToken { enabled := true, secrets := [] } (fun _ => none) 7 1 { usedNonces := [] }
        (createToken 7 0 "n" "API" Operation.use 0) =
      ({ success := false, error := some "Invalid or expired token" }, { usedNonces := [] }) :=
  c5_token_expiry_amended { enabled := true, secrets := [] } (fun _ => none)
    7 0 1 0 "n" "API" Operation.use { usedNonces := [] } (by decide)

/-- C3: contradicting the claim, validate does NOT resolve every internal fault
to a denial: with an enabled capability naming a registered custom validator
whose function throws, the exception propagates uncaught out of validate
(step 8 has no try/catch around the custom validator call). -/
theorem c3_validate_propagates_custom_throw :
    validate
      { capabilities :=
          [("act", { enabled := true, constraints := some { customValidator := some "boom" } })],
        constraints := none }
      (fun _ _ => false) (fun _ _ => false)
      [("boom", fun _ => Except.error "custom validator exploded")]
      [] 0 { action := "act" } = Except.error "custom validator exploded" := rfl

/-- C4: blocked precedence: whenever a subject matches at least one blocked
and at least one allowed glob, isDomainAllowed and isPathAllowed deny it, with
a reason citing the (first) matching blocked pattern. -/
theorem c4_blocked_precedence (mmD mmP : String → String → Bool)
    (domain filePath : String) (allowedD blockedD allowedP blockedP : List String)
    (ad bd ap bp : String)
    (had : ad ∈ allowedD) (hmad : mmD domain ad = true)
    (hbd : bd ∈ blockedD) (hmbd : mmD domain bd = true)
    (hap : ap ∈ allowedP) (hmap : mmP (normalizePath filePath) ap = true)
    (hbp : bp ∈ blockedP) (hmbp : mmP (normalizePath filePath) bp = true) :
    ((isDomainAllowed mmD domain (some allowedD) (some blockedD)).allowed = false ∧
      ∃ q ∈ blockedD, mmD domain q = true ∧
        (isDomainAllowed mmD domain (some allowedD) (some blockedD)).reason =
          some ("Domain blocked by pattern: " ++ q)) ∧
    ((isPathAllowed mmP filePath (some allowedP) (some blockedP)).allowed = false ∧
      ∃ q ∈ blockedP, mmP (normalizePath filePath) q = true ∧
        (isPathAllowed mmP filePath (some allowedP) (some blockedP)).reason =
          some ("Path blocked by pattern: " ++ q)) := by
  obtain ⟨qd, hfd, hpd, hmemd⟩ := find?_of_exists ⟨bd, hbd, hmbd⟩
  obtain ⟨qp, hfp, hpp, hmemp⟩ := find?_of_exists ⟨bp, hbp, hmbp⟩
  constructor
  · constructor
    · simp [isDomainAllowed, hfd]
    · exact ⟨qd, hmemd, hpd, by simp [isDomainAllowed, hfd]⟩
  · constructor
    · simp [isPathAllowed, hfp]
    · exact ⟨qp, hmemp, hpp, by simp [isPathAllowed, hfp]⟩

/-- Witness for C4 at concrete inputs (equality matcher; for paths the subject
is given with a backslash separator that normalization rewrites). -/
theorem c4_blocked_precedence_witness :
    ((isDomainAllowed (fun s p => s == p) "evil.com" (some ["evil.com"]) (some ["evil.com"])).allowed
        = false ∧
      ∃ q ∈ ["evil.com"], (fun (s p : String) => s == p) "evil.com" q = true ∧
        (isDomainAllowed (fun s p => s == p) "evil.com" (some ["evil.com"])
            (some ["evil.com"])).reason = some ("Domain blocked by pattern: " ++ q)) ∧
    ((isPathAllowed (fun s p => s == p) "app\\.env" (some ["app/.env"]) (some ["app/.env"])).allowed
        = false ∧
      ∃ q ∈ ["app/.env"],
        (fun (s p : String) => s == p) (normalizePath "app\\.env") q = true ∧
        (isPathAllowed (fun s p => s == p) "app\\.env" (some ["app/.env"])
            (some ["app/.env"])).reason = some ("Path blocked by pattern: " ++ q)) :=
  c4_blocked_precedence (fun s p => s == p) (fun s p => s == p) "evil.com" "app\\.env"
    ["evil.com"] ["evil.com"] ["app/.env"] ["app/.env"] "evil.com" "evil.com"
    "app/.env" "app/.env"
    (by decide) (by decide) (by decide) (by decide)
    (by decide) (by decide) (by decide) (by decide)

/-- C7: only requestToken consults the enabled flag. On a vault whose config is
disabled but registers a secret, requestToken refuses ("Vault is disabled"),
yet a token minted with the shared module-level signing key (by any vault
instance in the process) verifies there, and useToken returns the raw secret
value. -/
theorem c7_disabled_vault_accepts_foreign_token (cfg : VaultConfig)
    (env : String → Option String) (key now1 now2 ttl : Nat)
    (nonce name secretValue : String) (op opReq : Operation) (sd : SecretDef)
    (st : VaultState)
    (hdis : cfg.enabled = false)
    (hsec : lookupSecret cfg name = some sd)
    (hval : getSecretValue env sd = some secretValue)
    (hfresh : nonce ∉ st.usedNonces)
    (hexp : now2 ≤ now1 + ttl * 1000) :
    requestToken cfg key now1 nonce name opReq =
      { success := false, error := some "Vault is disabled" } ∧
    (useToken cfg env key now2 st (createToken key now1 nonce name op ttl)).1 =
      { success := true, value := some secretValue } := by
  constructor
  · simp [requestToken, hdis]
  · have hv := verifyToken_createToken key now1 now2 ttl nonce name op
    rw [if_neg (by omega : ¬ (now1 + ttl * 1000 < now2))] at hv
    simp [useToken, hv, hfresh, hsec, hval]

/-- Witness for C7 at a concrete disabled vault with one env-backed secret. -/
theorem c7_disabled_vault_accepts_foreign_token_witness :
    requestToken
        { enabled := false, secrets := [("API", { source := SecretSource.env, envVar := some "API_VAR" })] }
        5 0 "n" "API" Operation.use =
      { success := false, error := some "Vault is disabled" } ∧
    (useToken
        { enabled := false, secrets := [("API", { source := SecretSource.env, envVar := some "API_VAR" })] }
        (fun v => if v = "API_VAR" then some "s3cr3t" else none) 5 0 { usedNonces := [] }
        (createToken 5 0 "n" "API" Operation.use 300)).1 =
      { success := true, value := some "s3cr3t" } :=
  c7_disabled_vault_accepts_foreign_token
    { enabled := false, secrets := [("API", { source := SecretSource.env, envVar := some "API_VAR" })] }
    (fun v => if v = "API_VAR" then some "s3cr3t" else none) 5 0 0 300 "n" "API" "s3cr3t"
    Operation.use Operation.use { source := SecretSource.env, envVar := some "API_VAR" }
    { usedNonces := [] } rfl (by decide) (by decide) (by decide) (by decide)

/-- C8: for a capability whose rateLimit is 1, weak-model scaling floors the
limit to 0, and validate then skips the per-capability rate check entirely
(the JavaScript truthiness guard treats 0 as absent): with no global limit,
validate neither consumes quota nor can deny on rate, passing the store through
to steps 5-9 untouched. -/
theorem c8_weak_scaling_drops_rate_limit :
    (∀ (e : Bool) (c : CapabilityConstraints), c.rateLimit = some 1 →
      ((scaleCapability ModelStrength.weak { enabled := e, constraints := some c }).constraints.getD
          {}).rateLimit = some 0) ∧
    (∀ (cfg : SmithConfig) (mmD mmP : String → String → Bool) (cvs : CustomValidators)
        (store : RateLimitStore) (now : Nat) (ctx : ActionContext)
        (cap : CapabilityDef) (c : CapabilityConstraints),
      lookupCapability cfg ctx.action = some cap →
      cap.enabled = true →
      cap.constraints = some c →
      c.rateLimit = some 0 →
      optNatTruthy (cfg.constraints.bind GlobalConstraints.maxRatePerMinute) = false →
      validate cfg mmD mmP cvs store now ctx =
        (validateChecks cfg mmD mmP cvs ctx c).map (fun r => (r, store))) := by
  constructor
  · intro e c hrl
    simp [scaleCapability, hrl, optNatTruthy, applyMult]
    split <;> rfl
  · intro cfg mmD mmP cvs store now ctx cap c hcap hen hc hrl hg
    have hg' : (match cfg.constraints.bind GlobalConstraints.maxRatePerMinute with
      | none => false
      | some n => n != 0) = false := hg
    simp [validate, hcap, hen, hc, hg', hrl, optNatTruthy]

/-- Witness for C8 at a concrete capability and configuration. -/
theorem c8_weak_scaling_drops_rate_limit_witness :
    ((scaleCapability ModelStrength.weak
        { enabled := true, constraints := some { rateLimit := some 1 } }).constraints.getD
        {}).rateLimit = some 0 ∧
    validate { capabilities := [("a", { enabled := true, constraints := some { rateLimit := some 0 } })] }
        (fun _ _ => false) (fun _ _ => false) [] [("a", { count := 99, windowStart := 0 })] 0
        { action := "a" } =
      (validateChecks
          { capabilities := [("a", { enabled := true, constraints := some { rateLimit := some 0 } })] }
          (fun _ _ => false) (fun _ _ => false) [] { action := "a" } { rateLimit := some 0 }).map
        (fun r => (r, [("a", { count := 99, windowStart := 0 })])) :=
  ⟨c8_weak_scaling_drops_rate_limit.1 true { rateLimit := some 1 } rfl,
    c8_weak_scaling_drops_rate_limit.2
      { capabilities := [("a", { enabled := true, constraints := some { rateLimit := some 0 } })] }
      (fun _ _ => false) (fun _ _ => false) [] [("a", { count := 99, windowStart := 0 })] 0
      { action := "a" } { enabled := true, constraints := some { rateLimit := some 0 } }
      { rateLimit := some 0 } (by decide) rfl rfl rfl rfl⟩

/-! ## Rate-limiter call sequences (for the fixed-window claim) -/

/-- Decisions of a sequence of checkRateLimit calls for one key at the given
times, threading the store. -/
def runCalls (key : String) (limit : Nat) : RateLimitStore → List Nat → List Bool
  | _, [] => []
  | store, t :: ts =>
    let r := checkRateLimit store t key limit
    r.1 :: runCalls key limit r.2 ts

theorem lookupStore_setStore (store : RateLimitStore) (key : String) (v : RateLimitEntry) :
    lookupStore (setStore store key v) key = some v := by
  induction store with
  | nil => simp [setStore, lookupStore, List.find?]
  | cons kv rest ih =>
    obtain ⟨k, e⟩ := kv
    by_cases hk : k == key
    · simp [setStore, hk, lookupStore, List.find?]
    · simp only [setStore, hk, if_false]
      simpa [lookupStore, List.find?, hk] using ih

theorem runCalls_in_window (key : String) (limit t0 c : Nat) (st : RateLimitStore)
    (ts : List Nat)
    (hst : lookupStore st key = some { count := c, windowStart := t0 })
    (hts : ∀ t ∈ ts, t0 ≤ t ∧ t ≤ t0 + RATE_LIMIT_WINDOW_MS) :
    runCalls key limit st ts =
      List.replicate (min ts.length (limit - c)) true ++
        List.replicate (ts.length - (limit - c)) false := by
  induction ts generalizing st c with
  | nil => simp [runCalls]
  | cons t ts ih =>
    have ht := hts t (by simp)
    have hwin : ¬ (RATE_LIMIT_WINDOW_MS < t - t0) := by omega
    by_cases hlim : limit ≤ c
    · have hrc : checkRateLimit st t key limit = (false, st) := by
        simp [checkRateLimit, hst, hwin, hlim]
      have hrest := ih c st hst (fun u hu => hts u (by simp [hu]))
      rw [runCalls, hrc]
      simp only at hrest ⊢
      rw [hrest]
      have hz : limit - c = 0 := by omega
      simp [hz, List.replicate_succ]
    · have hrc : checkRateLimit st t key limit =
          (true, setStore st key { count := c + 1, windowStart := t0 }) := by
        simp [checkRateLimit, hst, hwin, hlim]
      have hrest := ih (c + 1) (setStore st key { count := c + 1, windowStart := t0 })
        (lookupStore_setStore st key _) (fun u hu => hts u (by simp [hu]))
      rw [runCalls, hrc]
      simp only at hrest ⊢
      rw [hrest]
      have h1 : min (ts.length + 1) (limit - c) = 1 + min ts.length (limit - (c + 1)) := by
        omega
      have h2 : ts.length + 1 - (limit - c) = ts.length - (limit - (c + 1)) := by omega
      simp only [List.length_cons, h1, h2]
      rw [List.replicate_add]
      simp

/-- C6: the fixed 60-second window: a first call for a key (or any call whose
window has elapsed) resets the entry to count 1 and allows; starting from a
fresh key, of any run of calls inside one window exactly the first
min(length, N) are allowed and the rest denied — in particular the first N
succeed and the (N+1)th fails; a later call strictly past the window start by
more than the window length is allowed again. -/
theorem c6_rate_limit_window :
    (∀ (st : RateLimitStore) (now : Nat) (key : String) (limit : Nat),
      lookupStore st key = none →
      checkRateLimit st now key limit = (true, setStore st key { count := 1, windowStart := now })) ∧
    (∀ (st : RateLimitStore) (now : Nat) (key : String) (limit : Nat) (e : RateLimitEntry),
      lookupStore st key = some e →
      RATE_LIMIT_WINDOW_MS < now - e.windowStart →
      checkRateLimit st now key limit = (true, setStore st key { count := 1, windowStart := now })) ∧
    (∀ (key : String) (limit t0 : Nat) (ts : List Nat) (st : RateLimitStore),
      1 ≤ limit →
      lookupStore st key = none →
      (∀ t ∈ ts, t0 ≤ t ∧ t ≤ t0 + RATE_LIMIT_WINDOW_MS) →
      runCalls key limit st (t0 :: ts) =
        List.replicate (min (ts.length + 1) limit) true ++
          List.replicate (ts.length + 1 - limit) false) := by
  refine ⟨?_, ?_, ?_⟩
  · intro st now key limit hst
    simp [checkRateLimit, hst]
  · intro st now key limit e hst hwin
    simp [checkRateLimit, hst, hwin]
  · intro key limit t0 ts st hlim hst hts
    have hrc : checkRateLimit st t0 key limit =
        (true, setStore st key { count := 1, windowStart := t0 }) := by
      simp [checkRateLimit, hst]
    have hrest := runCalls_in_window key limit t0 1
      (setStore st key { count := 1, windowStart := t0 }) ts
      (lookupStore_setStore st key _) hts
    rw [runCalls, hrc]
    simp only at hrest ⊢
    rw [hrest]
    have h1 : min (ts.length + 1) limit = 1 + min ts.length (limit - 1) := by omega
    have h2 : ts.length + 1 - limit = ts.length - (limit - 1) := by omega
    rw [h1, h2, List.replicate_add]
    simp

/-- Witness for C6: limit 2, three calls inside the window, then one call after
the window has elapsed. -/
theorem c6_rate_limit_window_witness :
    checkRateLimit [] 0 "k" 2 = (true, [("k", { count := 1, windowStart := 0 })]) ∧
    checkRateLimit [("k", { count := 2, windowStart := 0 })] 70000 "k" 2 =
      (true, [("k", { count := 1, windowStart := 70000 })]) ∧
    runCalls "k" 2 [] [0, 1, 2] = [true, true, false] := by
  refine ⟨?_, ?_, ?_⟩
  · exact c6_rate_limit_window.1 [] 0 "k" 2 rfl
  · exact c6_rate_limit_window.2.1 [("k", { count := 2, windowStart := 0 })] 70000 "k" 2
      { count := 2, windowStart := 0 } rfl (by decide)
  · have h := c6_rate_limit_window.2.2 "k" 2 0 [1, 2] [] (by decide) rfl (by decide)
    simpa using h

/-- C9: validate's rate-window mutation discipline: a denial at step 1 (unknown
capability) or step 2 (disabled capability) returns the store untouched, while
for a known enabled capability with configured (truthy) global and
per-capability limits whose checks pass, the store returned by validate is
exactly the store produced by the two checkRateLimit mutations of steps 3-4,
for every downstream outcome of steps 5-8 — a call denied later still consumed
quota. -/
theorem c9_rate_mutation_frame :
    (∀ (cfg : SmithConfig) (mmD mmP : String → String → Bool) (cvs : CustomValidators)
        (store : RateLimitStore) (now : Nat) (ctx : ActionContext),
      lookupCapability cfg ctx.action = none →
      validate cfg mmD mmP cvs store now ctx =
        .ok ({ allowed := false, reason := some ("Unknown capability: " ++ ctx.action),
               capability := some ctx.action }, store)) ∧
    (∀ (cfg : SmithConfig) (mmD mmP : String → String → Bool) (cvs : CustomValidators)
        (store : RateLimitStore) (now : Nat) (ctx : ActionContext) (cap : CapabilityDef),
      lookupCapability cfg ctx.action = some cap →
      cap.enabled = false →
      validate cfg mmD mmP cvs store now ctx =
        .ok ({ allowed := false, reason := some ("Capability disabled: " ++ ctx.action),
               capability := some ctx.action }, store)) ∧
    (∀ (cfg : SmithConfig) (mmD mmP : String → String → Bool) (cvs : CustomValidators)
        (store s1 s2 : RateLimitStore) (now : Nat) (ctx : ActionContext)
        (cap : CapabilityDef) (c : CapabilityConstraints) (gl rl : Nat),
      lookupCapability cfg ctx.action = some cap →
      cap.enabled = true →
      cap.constraints = some c →
      cfg.constraints.bind GlobalConstraints.maxRatePerMinute = some gl →
      gl ≠ 0 →
      c.rateLimit = some rl →
      rl ≠ 0 →
      checkRateLimit store now "__global__" gl = (true, s1) →
      checkRateLimit s1 now ctx.action rl = (true, s2) →
      validate cfg mmD mmP cvs store now ctx =
        (validateChecks cfg mmD mmP cvs ctx c).map (fun r => (r, s2))) := by
  refine ⟨?_, ?_, ?_⟩
  · intro cfg mmD mmP cvs store now ctx hcap
    simp [validate, hcap]
  · intro cfg mmD mmP cvs store now ctx cap hcap hen
    simp [validate, hcap, hen]
  · intro cfg mmD mmP cvs store s1 s2 now ctx cap c gl rl hcap hen hc hgl hgl0 hrl hrl0 h3 h4
    simp [validate, hcap, hen, hc, hgl, hgl0, hrl, hrl0, optNatTruthy, h3, h4]

/-- Witness for C9: a capability with both limits configured whose call is
denied at step 5 (domain blocked) still has both window counters advanced. -/
theorem c9_rate_mutation_frame_witness :
    validate
        { capabilities := [("a",
            { enabled := true,
              constraints := some { blockedDomains := some ["*"], rateLimit := some 5 } })],
          constraints := some { maxRatePerMinute := some 10 } }
        (fun _ _ => true) (fun _ _ => true) []
        [] 0 { action := "a", domain := some "x.example" } =
      (validateChecks
          { capabilities := [("a",
              { enabled := true,
                constraints := some { blockedDomains := some ["*"], rateLimit := some 5 } })],
            constraints := some { maxRatePerMinute := some 10 } }
          (fun _ _ => true) (fun _ _ => true) [] { action := "a", domain := some "x.example" }
          { blockedDomains := some ["*"], rateLimit := some 5 }).map
        (fun r => (r, [("__global__", { count := 1, windowStart := 0 }),
                       ("a", { count := 1, windowStart := 0 })])) := by
  exact c9_rate_mutation_frame.2.2
    { capabilities := [("a",
        { enabled := true,
          constraints := some { blockedDomains := some ["*"], rateLimit := some 5 } })],
      constraints := some { maxRatePerMinute := some 10 } }
    (fun _ _ => true) (fun _ _ => true) []
    [] [("__global__", { count := 1, windowStart := 0 })]
    [("__global__", { count := 1, windowStart := 0 }), ("a", { count := 1, windowStart := 0 })]
    0 { action := "a", domain := some "x.example" }
    { enabled := true, constraints := some { blockedDomains := some ["*"], rateLimit := some 5 } }
    { blockedDomains := some ["*"], rateLimit := some 5 } 10 5
    rfl rfl rfl rfl (by decide) rfl (by decide) rfl rfl

/-! ## Nonce burning helpers (vault.ts: useToken / execute nonce discipline) -/

theorem useToken_nonce_recorded (cfg : VaultConfig) (env : String → Option String)
    (key now : Nat) (st : VaultState) (tok : String) (payload : TokenPayload)
    (hv : verifyToken key now tok = some payload) :
    payload.nonce ∈ ((useToken cfg env key now st tok).2).usedNonces := by
  by_cases hn : payload.nonce ∈ st.usedNonces
  · simp [useToken, hv, hn]
  · rcases hsec : lookupSecret cfg payload.secretName with _ | sd
    · simp [useToken, hv, hn, hsec]
    · rcases hval : getSecretValue env sd with _ | v <;>
        simp [useToken, hv, hn, hsec, hval]

theorem useToken_already_used (cfg : VaultConfig) (env : String → Option String)
    (key now : Nat) (st : VaultState) (tok : String) (payload : TokenPayload)
    (hv : verifyToken key now tok = some payload)
    (hn : payload.nonce ∈ st.usedNonces) :
    useToken cfg env key now st tok =
      ({ success := false, error := some "Token already used" }, st) := by
  simp [useToken, hv, hn]

theorem execute_nonce_recorded {Params Value : Type} (cfg : VaultConfig)
    (env : String → Option String) (executors : Executors Params Value)
    (key now : Nat) (st : VaultState) (req : VaultRequest Params) (emptyObj : Params)
    (tok : String) (payload : TokenPayload)
    (htok : req.token = some tok)
    (hv : verifyToken key now tok = some payload) :
    payload.nonce ∈ ((execute cfg env executors key now st req emptyObj).2).usedNonces := by
  by_cases hn : payload.nonce ∈ st.usedNonces
  · simp [execute, htok, hv, hn]
  · rcases hea : req.executeAction with _ | an
    · simp [execute, htok, hv, hn, hea]
    · rcases hex : lookupExecutor executors an with _ | f
      · simp [execute, htok, hv, hn, hea, hex]
      · rcases hsec : lookupSecret cfg payload.secretName with _ | sd
        · simp [execute, htok, hv, hn, hea, hex, hsec]
        · rcases hval : getSecretValue env sd with _ | secret
          · simp [execute, htok, hv, hn, hea, hex, hsec, hval]
          · rcases hres : f secret (req.executeParams.getD emptyObj) with e | r <;>
              simp [execute, htok, hv, hn, hea, hex, hsec, hval, hres]

theorem execute_already_used {Params Value : Type} (cfg : VaultConfig)
    (env : String → Option String) (executors : Executors Params Value)
    (key now : Nat) (st : VaultState) (req : VaultRequest Params) (emptyObj : Params)
    (tok : String) (payload : TokenPayload)
    (htok : req.token = some tok)
    (hv : verifyToken key now tok = some payload)
    (hn : payload.nonce ∈ st.usedNonces) :
    execute cfg env executors key now st req emptyObj =
      ({ success := false, error := some "Token already used" }, st) := by
  simp [execute, htok, hv, hn]

/-- C1: token single use: for a token that verifies, a first useToken or
execute call records its nonce in the used set regardless of the call's own
outcome (before secret resolution and executor invocation), and any call on a
state whose used set already holds the nonce fails with "Token already used"
without further state change — so the second of two calls with the identical
token is always denied. -/
theorem c1_token_single_use {Params Value : Type} (cfg : VaultConfig)
    (env : String → Option String) (executors : Executors Params Value)
    (key now0 now1 now2 : Nat) (nonce name : String) (op : Operation) (ttl : Nat)
    (st : VaultState) (sn2 : String) (vop : VaultOperation)
    (ea ea' : Option String) (ps ps' : Option Params) (emptyObj : Params)
    (h1 : now1 ≤ now0 + ttl * 1000) (h2 : now2 ≤ now0 + ttl * 1000) :
    (nonce ∈ ((useToken cfg env key now1 st (createToken key now0 nonce name op ttl)).2).usedNonces) ∧
    (nonce ∈ ((execute cfg env executors key now1 st
        { token := some (createToken key now0 nonce name op ttl), secretName := sn2,
          operation := vop, executeAction := ea, executeParams := ps } emptyObj).2).usedNonces) ∧
    (∀ st' : VaultState, nonce ∈ st'.usedNonces →
      useToken cfg env key now2 st' (createToken key now0 nonce name op ttl) =
        ({ success := false, error := some "Token already used" }, st')) ∧
    (∀ st' : VaultState, nonce ∈ st'.usedNonces →
      execute cfg env executors key now2 st'
          { token := some (createToken key now0 nonce name op ttl), secretName := sn2,
            operation := vop, executeAction := ea', executeParams := ps' } emptyObj =
        ({ success := false, error := some "Token already used" }, st')) := by
  have hv1 : verifyToken key now1 (createToken key now0 nonce name op ttl) =
      some { secretName := name, operation := op, issuedAt := now0,
             expiresAt := now0 + ttl * 1000, nonce := nonce } := by
    rw [verifyToken_createToken, if_neg (by omega : ¬ (now0 + ttl * 1000 < now1))]
  have hv2 : verifyToken key now2 (createToken key now0 nonce name op ttl) =
      some { secretName := name, operation := op, issuedAt := now0,
             expiresAt := now0 + ttl * 1000, nonce := nonce } := by
    rw [verifyToken_createToken, if_neg (by omega : ¬ (now0 + ttl * 1000 < now2))]
  refine ⟨?_, ?_, ?_, ?_⟩
  · exact useToken_nonce_recorded cfg env key now1 st _ _ hv1
  · exact execute_nonce_recorded cfg env executors key now1 st _ emptyObj _ _ rfl hv1
  · intro st' hmem
    exact useToken_already_used cfg env key now2 st' _ _ hv2 hmem
  · intro st' hmem
    exact execute_already_used cfg env executors key now2 st' _ emptyObj _ _ rfl hv2 hmem

/-- Witness for C1 at concrete inputs (empty executor registry, empty vault). -/
theorem c1_token_single_use_witness :
    ("n" ∈ ((useToken { enabled := true, secrets := [] } (fun _ => none) 3 0 { usedNonces := [] }
        (createToken 3 0 "n" "API" Operation.use 300)).2).usedNonces) ∧
    ("n" ∈ ((execute { enabled := true, secrets := [] } (fun _ => none)
        ([] : Executors Nat Nat) 3 0 { usedNonces := [] }
        { token := some (createToken 3 0 "n" "API" Operation.use 300), secretName := "API",
          operation := VaultOperation.execute, executeAction := none, executeParams := none }
        0).2).usedNonces) ∧
    (∀ st' : VaultState, "n" ∈ st'.usedNonces →
      useToken { enabled := true, secrets := [] } (fun _ => none) 3 0 st'
          (createToken 3 0 "n" "API" Operation.use 300) =
        ({ success := false, error := some "Token already used" }, st')) ∧
    (∀ st' : VaultState, "n" ∈ st'.usedNonces →
      execute { enabled := true, secrets := [] } (fun _ => none) ([] : Executors Nat Nat) 3 0 st'
          { token := some (createToken 3 0 "n" "API" Operation.use 300), secretName := "API",
            operation := VaultOperation.execute, executeAction := none, executeParams := none }
          0 =
        ({ success := false, error := some "Token already used" }, st')) :=
  c1_token_single_use { enabled := true, secrets := [] } (fun _ => none)
    ([] : Executors Nat Nat) 3 0 0 0 "n" "API" Operation.use 300 { usedNonces := [] }
    "API" VaultOperation.execute none none none none 0 (by decide) (by decide)

/-! ## Secret flow through the client facade (for the extraction claim) -/

/-- Fixed error strings the client round trip can produce without consulting
any secret value (only the caller-chosen secret and executor names appear in
them). -/
def plainClientError (secretName executorName : String) (e : String) : Prop :=
  e = "Vault is disabled" ∨ e = "Unknown secret: " ++ secretName ∨
  e = "Failed to get token" ∨ e = "Token required for execute operation" ∨
  e = "Invalid or expired token" ∨ e = "Token already used" ∨
  e = "Execute action required" ∨ e = "Unknown executor: " ++ executorName ∨
  e = "Secret not found" ∨ e = "Secret value not available"

/-- The only shapes a client round-trip result can take: a failure carrying no
data whose error is a fixed policy string or a message thrown by the registered
executor; or a success whose data is exactly the registered executor's output
on the resolved secret. The secret value reaches the returned structure only
through the executor call. -/
def clientSecretFlow {Params Value : Type} (cfg : VaultConfig)
    (env : String → Option String) (executors : Executors Params Value)
    (secretName executorName : String) (params : Params)
    (r : AuthenticatedRequestResult Value) : Prop :=
  (∃ e, r = { success := false, data := none, error := some e } ∧
    (plainClientError secretName executorName e ∨
      ∃ f sd secret, lookupExecutor executors executorName = some f ∧
        lookupSecret cfg secretName = some sd ∧ getSecretValue env sd = some secret ∧
        f secret params = Except.error e)) ∨
  (∃ f sd secret result, lookupExecutor executors executorName = some f ∧
    lookupSecret cfg secretName = some sd ∧ getSecretValue env sd = some secret ∧
    f secret params = Except.ok result ∧
    r = { success := true, data := some result, error := none })

theorem execute_flow {Params Value : Type} (cfg : VaultConfig) (env : String → Option String)
    (executors : Executors Params Value) (key now : Nat) (st : VaultState)
    (tok secretName executorName sn2 : String) (vop : VaultOperation) (payload : TokenPayload)
    (params emptyObj : Params)
    (hv : verifyToken key now tok = some payload)
    (hpn : payload.secretName = secretName) :
    (∃ e, (execute cfg env executors key now st
        { token := some tok, secretName := sn2, operation := vop,
          executeAction := some executorName, executeParams := some params } emptyObj).1 =
          { success := false, result := none, error := some e } ∧
      (plainClientError secretName executorName e ∨
        ∃ f sd secret, lookupExecutor executors executorName = some f ∧
          lookupSecret cfg secretName = some sd ∧ getSecretValue env sd = some secret ∧
          f secret params = Except.error e)) ∨
    (∃ f sd secret result, lookupExecutor executors executorName = some f ∧
      lookupSecret cfg secretName = some sd ∧ getSecretValue env sd = some secret ∧
      f secret params = Except.ok result ∧
      (execute cfg env executors key now st
        { token := some tok, secretName := sn2, operation := vop,
          executeAction := some executorName, executeParams := some params } emptyObj).1 =
        { success := true, result := some result, error := none }) := by
  by_cases hn : payload.nonce ∈ st.usedNonces
  · exact Or.inl ⟨"Token already used", by simp [execute, hv, hn],
      Or.inl (by simp [plainClientError])⟩
  · rcases hf : lookupExecutor executors executorName with _ | f
    · exact Or.inl ⟨"Unknown executor: " ++ executorName,
        by simp [execute, hv, hn, hf], Or.inl (by simp [plainClientError])⟩
    · rcases hs : lookupSecret cfg secretName with _ | sd
      · exact Or.inl ⟨"Secret not found", by simp [execute, hv, hn, hf, hpn, hs],
          Or.inl (by simp [plainClientError])⟩
      · rcases hval : getSecretValue env sd with _ | secret
        · exact Or.inl ⟨"Secret value not available",
            by simp [execute, hv, hn, hf, hpn, hs, hval], Or.inl (by simp [plainClientError])⟩
        · rcases hres : f secret params with e | result
          · exact Or.inl ⟨e, by simp [execute, hv, hn, hf, hpn, hs, hval, hres],
              Or.inr ⟨f, sd, secret, rfl, rfl, hval, hres⟩⟩
          · exact Or.inr ⟨f, sd, secret, result, rfl, rfl, hval, hres,
              by simp [execute, hv, hn, hf, hpn, hs, hval, hres]⟩

theorem executeWithSecret_flow {Params Value : Type} (cfg : VaultConfig)
    (env : String → Option String) (executors : Executors Params Value)
    (key nowIssue nowExec : Nat) (nonce : String) (st : VaultState)
    (secretName executorName : String) (params : Params) (emptyObj : Params) :
    clientSecretFlow cfg env executors secretName executorName params
      (executeWithSecret cfg env executors key nowIssue nowExec nonce st
        secretName executorName params emptyObj).1 := by
  by_cases hen : cfg.enabled
  · rcases hs : lookupSecret cfg secretName with _ | sd
    · exact Or.inl ⟨"Unknown secret: " ++ secretName,
        by simp [executeWithSecret, requestToken, hen, hs],
        Or.inl (by simp [plainClientError])⟩
    · have hv := verifyToken_createToken key nowIssue nowExec (cfg.tokenTTL.getD 300)
        nonce secretName Operation.use
      by_cases hexp : nowIssue + (cfg.tokenTTL.getD 300) * 1000 < nowExec
      · rw [if_pos hexp] at hv
        exact Or.inl ⟨"Invalid or expired token",
          by simp [executeWithSecret, requestToken, hen, hs, execute, hv],
          Or.inl (by simp [plainClientError])⟩
      · rw [if_neg hexp] at hv
        have hflow := execute_flow cfg env executors key nowExec st
          (createToken key nowIssue nonce secretName Operation.use (cfg.tokenTTL.getD 300))
          secretName executorName secretName VaultOperation.execute _ params emptyObj hv rfl
        have hEq : (executeWithSecret cfg env executors key nowIssue nowExec nonce st
            secretName executorName params emptyObj).1 =
            { success := (execute cfg env executors key nowExec st
                { token := some (createToken key nowIssue nonce secretName Operation.use
                    (cfg.tokenTTL.getD 300)),
                  secretName := secretName, operation := VaultOperation.execute,
                  executeAction := some executorName, executeParams := some params }
                emptyObj).1.success,
              data := (execute cfg env executors key nowExec st
                { token := some (createToken key nowIssue nonce secretName Operation.use
                    (cfg.tokenTTL.getD 300)),
                  secretName := secretName, operation := VaultOperation.execute,
                  executeAction := some executorName, executeParams := some params }
                emptyObj).1.result,
              error := (execute cfg env executors key nowExec st
                { token := some (createToken key nowIssue nonce secretName Operation.use
                    (cfg.tokenTTL.getD 300)),
                  secretName := secretName, operation := VaultOperation.execute,
                  executeAction := some executorName, executeParams := some params }
                emptyObj).1.error } := by
          simp [executeWithSecret, requestToken, hen, hs]
        rcases hflow with ⟨e, hre, hsrc⟩ | ⟨f, sd', secret, result, hf, hs', hval, hres, hre⟩
        · exact Or.inl ⟨e, by rw [hEq, hre], hsrc⟩
        · exact Or.inr ⟨f, sd', secret, result, hf, hs', hval, hres, by rw [hEq, hre]⟩
  · exact Or.inl ⟨"Vault is disabled", by simp [executeWithSecret, requestToken, hen],
      Or.inl (by simp [plainClientError])⟩

/-- C2: the client facade cannot return raw secret material: every
executeWithSecret and makeAuthenticatedRequest result is only
success/data/error built from the vault's ExecuteResult, where a failure's
error is a fixed policy string or the registered executor's own thrown message
and a success's data is exactly the registered executor's output — the secret
enters the returned structure only through the executor; listAvailableSecrets
returns only configured names, and the client's hasSecret is the vault's
boolean metadata check. -/
theorem c2_client_secret_isolation {Params Value : Type} (cfg : VaultConfig)
    (env : String → Option String) (executors : Executors Params Value)
    (key nowIssue nowExec : Nat) (nonce : String) (st : VaultState)
    (secretName executorName : String) (params : Params) (emptyObj : Params) :
    clientSecretFlow cfg env executors secretName executorName params
      (executeWithSecret cfg env executors key nowIssue nowExec nonce st
        secretName executorName params emptyObj).1 ∧
    clientSecretFlow cfg env executors secretName "http" params
      (makeAuthenticatedRequest cfg env executors key nowIssue nowExec nonce st
        secretName params emptyObj).1 ∧
    listAvailableSecrets cfg = cfg.secrets.map Prod.fst ∧
    (∀ n, clientHasSecret cfg env n = hasSecret cfg env n) := by
  refine ⟨executeWithSecret_flow cfg env executors key nowIssue nowExec nonce st
    secretName executorName params emptyObj, ?_, rfl, fun _ => rfl⟩
  rw [makeAuthenticatedRequest_eq_executeWithSecret]
  exact executeWithSecret_flow cfg env executors key nowIssue nowExec nonce st
    secretName "http" params emptyObj

end Smith
